import Mathlib

/-!
Verification development for the `swc` voice transport engine.

The definitions below are a shallow embedding of the Rust sources:
byte buffers become `List Nat` (each entry one byte), in-place slice
writes become `Option`-valued functions where `none` models a Rust
panic (out-of-bounds slice index or failed `assert!`), and the
stateful objects (`Packet`, `Encryptor`, `Socket`, `PacketStreamer`,
`Connection`) become explicit state records with step functions.
-/

namespace Swc

/-! ## Constants (src/constants.rs) -/

/-- `TAG_SIZE` of the Poly1305 tag (xsalsa20poly1305 crate). -/
def TAG_SIZE : Nat := 16

/-- `NONCE_SIZE` of the XSalsa20 nonce (xsalsa20poly1305 crate). -/
def NONCE_SIZE : Nat := 24

/-- `VOICE_PACKET_MAX`: maximum packet size for a voice packet. -/
def VOICE_PACKET_MAX : Nat := 1460

/-- `MONO_FRAME_SIZE = SAMPLE_RATE / AUDIO_FRAME_RATE = 48000 / 50`. -/
def MONO_FRAME_SIZE : Nat := 960

/-! ## Byte buffer primitives

`writeSlice buf start src` models the Rust idiom
`buf[start..start + src.len()].copy_from_slice(src)`.
It returns `none` exactly when Rust would panic with an
out-of-bounds range. -/

/-- In-place slice write; `none` models the Rust slice-bounds panic. -/
def writeSlice (buf : List Nat) (start : Nat) (src : List Nat) : Option (List Nat) :=
  if start + src.length ≤ buf.length then
    some (buf.take start ++ src ++ buf.drop (start + src.length))
  else
    none

theorem writeSlice_eq_some {buf src out : List Nat} {start : Nat}
    (h : writeSlice buf start src = some out) :
    start + src.length ≤ buf.length ∧
      out = buf.take start ++ src ++ buf.drop (start + src.length) := by
  unfold writeSlice at h
  split at h
  · refine ⟨by assumption, ?_⟩
    injection h with h
    exact h.symm
  · exact absurd h (by simp)

theorem writeSlice_isSome_iff {buf src : List Nat} {start : Nat} :
    (writeSlice buf start src).isSome ↔ start + src.length ≤ buf.length := by
  unfold writeSlice
  split <;> simp_all

theorem writeSlice_length {buf src out : List Nat} {start : Nat}
    (h : writeSlice buf start src = some out) :
    out.length = buf.length := by
  obtain ⟨hle, rfl⟩ := writeSlice_eq_some h
  simp
  omega

theorem writeSlice_getD_lt {buf src out : List Nat} {start : Nat}
    (h : writeSlice buf start src = some out) {i : Nat} (hi : i < start) :
    out.getD i 0 = buf.getD i 0 := by
  obtain ⟨hle, rfl⟩ := writeSlice_eq_some h
  have hlen : i < (buf.take start).length := by
    simp
    omega
  rw [List.append_assoc, List.getD_append _ _ _ _ hlen, List.getD_eq_getElem?_getD,
    List.getElem?_take, if_pos hi, ← List.getD_eq_getElem?_getD]

theorem writeSlice_getD_ge {buf src out : List Nat} {start : Nat}
    (h : writeSlice buf start src = some out) {i : Nat}
    (hi : start + src.length ≤ i) :
    out.getD i 0 = buf.getD i 0 := by
  obtain ⟨hle, rfl⟩ := writeSlice_eq_some h
  have h1 : (buf.take start).length = start := by simp; omega
  rw [List.append_assoc]
  rw [List.getD_append_right _ _ _ _ (by omega)]
  rw [List.getD_append_right _ _ _ _ (by omega : src.length ≤ i - (buf.take start).length)]
  rw [List.getD_eq_getElem?_getD, List.getElem?_drop, ← List.getD_eq_getElem?_getD]
  congr 1
  omega

theorem writeSlice_getD_mem {buf src out : List Nat} {start : Nat}
    (h : writeSlice buf start src = some out) {i : Nat}
    (h1 : start ≤ i) (h2 : i < start + src.length) :
    out.getD i 0 = src.getD (i - start) 0 := by
  obtain ⟨hle, rfl⟩ := writeSlice_eq_some h
  have htk : (buf.take start).length = start := by simp; omega
  rw [List.append_assoc]
  rw [List.getD_append_right _ _ _ _ (by omega)]
  rw [htk, List.getD_append _ _ _ _ (by omega)]

/-! ## RTP packet (src/src/voice/rtp/mod.rs, identical in src/src/player/conn/rtp.rs)

A `Packet<T>` is a backing buffer plus a manually managed payload
length.  `HEADER_LEN = 12 + TAG_SIZE`. -/

/-- `Packet::HEADER_LEN = 12 + TAG_SIZE` (the 12-byte RTP header plus
the Poly1305 tag slot). -/
def HEADER_LEN : Nat := 12 + TAG_SIZE

/-- RTP packet: backing buffer plus tracked payload length. -/
structure Packet where
  buf : List Nat
  payloadLen : Nat
  deriving Repr, DecidableEq

/-- Big-endian bytes of a `u16` value. -/
def be16 (n : Nat) : List Nat := [n / 256 % 256, n % 256]

/-- Big-endian bytes of a `u32` value. -/
def be32 (n : Nat) : List Nat :=
  [n / 16777216 % 256, n / 65536 % 256, n / 256 % 256, n % 256]

theorem be16_length (n : Nat) : (be16 n).length = 2 := rfl

theorem be32_length (n : Nat) : (be32 n).length = 4 := rfl

namespace Packet

/-- `Packet::new`: asserts the buffer holds at least `HEADER_LEN`
bytes, then writes `0x80 0x78` at indices 0 and 1. -/
def new (buf : List Nat) : Option Packet :=
  if HEADER_LEN ≤ buf.length then
    some { buf := (buf.set 0 0x80).set 1 0x78, payloadLen := 0 }
  else
    none

/-- `Packet::set_sequence`: write the big-endian `u16` at bytes 2..4. -/
def setSequence (p : Packet) (sequence : Nat) : Option Packet :=
  (writeSlice p.buf 2 (be16 sequence)).map fun b => { p with buf := b }

/-- `Packet::set_timestamp`: write the big-endian `u32` at bytes 4..8. -/
def setTimestamp (p : Packet) (timestamp : Nat) : Option Packet :=
  (writeSlice p.buf 4 (be32 timestamp)).map fun b => { p with buf := b }

/-- `Packet::set_ssrc`: write the big-endian `u32` at bytes 8..12. -/
def setSsrc (p : Packet) (ssrc : Nat) : Option Packet :=
  (writeSlice p.buf 8 (be32 ssrc)).map fun b => { p with buf := b }

/-- `Packet::set_payload_len`: `assert!(buf.len() >= HEADER_LEN + payload_len)`,
then update the tracked length.  `none` models the assertion panic. -/
def setPayloadLen (p : Packet) (payloadLen : Nat) : Option Packet :=
  if HEADER_LEN + payloadLen ≤ p.buf.length then
    some { p with payloadLen := payloadLen }
  else
    none

/-- `Packet::header`: `&buf[..HEADER_LEN]`; panics when the buffer is
shorter than `HEADER_LEN`. -/
def header (p : Packet) : Option (List Nat) :=
  if HEADER_LEN ≤ p.buf.length then some (p.buf.take HEADER_LEN) else none

/-- A write through `Packet::tag_mut` (`&mut buf[12..12 + TAG_SIZE]`):
`tag_mut().copy_from_slice(src)`. The `copy_from_slice` panics unless
`src` has exactly `TAG_SIZE` bytes. -/
def writeTag (p : Packet) (src : List Nat) : Option Packet :=
  if TAG_SIZE ≤ p.buf.length - 12 ∧ src.length = TAG_SIZE then
    (writeSlice p.buf 12 src).map fun b => { p with buf := b }
  else
    none

/-- A write through `Packet::payload_mut` (`&mut buf[HEADER_LEN..]`):
`payload_mut()[off..off + src.len()].copy_from_slice(src)`.
Panics when the buffer is shorter than `HEADER_LEN` (the `payload_mut`
slice itself) or when the sub-range exceeds the payload area. -/
def writePayload (p : Packet) (off : Nat) (src : List Nat) : Option Packet :=
  if HEADER_LEN ≤ p.buf.length then
    (writeSlice p.buf (HEADER_LEN + off) src).map fun b => { p with buf := b }
  else
    none

/-- Reading `&payload_mut()[off..off+len]` (the plaintext slice handed
to the cipher). -/
def payloadSlice (p : Packet) (off len : Nat) : Option (List Nat) :=
  if HEADER_LEN ≤ p.buf.length ∧ HEADER_LEN + off + len ≤ p.buf.length then
    some ((p.buf.drop (HEADER_LEN + off)).take len)
  else
    none

/-- `Packet::as_ref`: the wire view `&buf[0..HEADER_LEN + payload_len]`. -/
def wire (p : Packet) : List Nat :=
  p.buf.take (HEADER_LEN + p.payloadLen)

end Packet

theorem payloadSlice_eq_some {p : Packet} {off len : Nat} {plain : List Nat}
    (h : p.payloadSlice off len = some plain) :
    HEADER_LEN ≤ p.buf.length ∧ HEADER_LEN + off + len ≤ p.buf.length ∧
      plain.length = len := by
  unfold Packet.payloadSlice at h
  split at h
  · rename_i hc
    injection h with h
    refine ⟨hc.1, hc.2, ?_⟩
    subst h
    simp
    omega
  · exact absurd h (by simp)

theorem writePayload_eq_some {p q : Packet} {off : Nat} {src : List Nat}
    (h : p.writePayload off src = some q) :
    HEADER_LEN + off + src.length ≤ p.buf.length ∧
      q.buf.length = p.buf.length ∧ q.payloadLen = p.payloadLen := by
  unfold Packet.writePayload at h
  split at h
  · cases hw : writeSlice p.buf (HEADER_LEN + off) src with
    | none => rw [hw] at h; exact absurd h (by simp)
    | some b =>
        rw [hw] at h
        obtain ⟨hle, _⟩ := writeSlice_eq_some hw
        injection h with h
        subst h
        exact ⟨by omega, writeSlice_length hw, rfl⟩
  · exact absurd h (by simp)

theorem writeTag_eq_some {p q : Packet} {src : List Nat}
    (h : p.writeTag src = some q) :
    q.buf.length = p.buf.length ∧ q.payloadLen = p.payloadLen := by
  unfold Packet.writeTag at h
  split at h
  · cases hw : writeSlice p.buf 12 src with
    | none => rw [hw] at h; exact absurd h (by simp)
    | some b =>
        rw [hw] at h
        injection h with h
        subst h
        exact ⟨writeSlice_length hw, rfl⟩
  · exact absurd h (by simp)

theorem setPayloadLen_eq_some {p q : Packet} {n : Nat}
    (h : p.setPayloadLen n = some q) :
    HEADER_LEN + n ≤ p.buf.length ∧ q.buf = p.buf ∧ q.payloadLen = n := by
  unfold Packet.setPayloadLen at h
  split at h
  · injection h with h
    subst h
    exact ⟨by assumption, rfl, rfl⟩
  · exact absurd h (by simp)

/-! ## Encryptor (src/src/player/conn/rtp/crypto.rs)

The xsalsa20poly1305 cipher itself is an external crate; it is
abstracted as an `Aead` record: a total sealing function together
with the crate-guaranteed facts that sealing preserves the plaintext
length (it is a stream cipher applied in place) and produces a
`TAG_SIZE`-byte tag. -/

/-- Abstraction of `XSalsa20Poly1305::encrypt_in_place_detached`:
`seal nonce plaintext = (ciphertext, tag)`. -/
structure Aead where
  sealFn : List Nat → List Nat → List Nat × List Nat
  sealFn_length : ∀ n p, (sealFn n p).1.length = p.length
  tagFn_length : ∀ n p, (sealFn n p).2.length = TAG_SIZE

/-- A concrete (dummy) cipher used to evaluate the model on concrete
inputs: ciphertext = plaintext, tag = 16 zero bytes. -/
def idAead : Aead where
  sealFn := fun _ p => (p, List.replicate TAG_SIZE 0)
  sealFn_length := fun _ _ => rfl
  tagFn_length := fun _ _ => by simp

/-- `EncryptorState`: per-mode state (unit, PRNG, or 32-bit counter).
The `StdRng` of the Suffix mode is modelled as a stream of draws
`rng : Nat → List Nat` plus the index of the next draw. -/
inductive EncryptorState where
  | normal
  | suffix (rng : Nat → List Nat) (draws : Nat)
  | lite (nextNonce : Nat)

/-- `rng.fill_bytes(&mut nonce)` for a 24-byte nonce buffer: the draw,
padded/truncated to exactly `NONCE_SIZE` bytes. -/
def fillBytes (draw : List Nat) : List Nat :=
  (draw ++ List.replicate NONCE_SIZE 0).take NONCE_SIZE

theorem fillBytes_length (draw : List Nat) : (fillBytes draw).length = NONCE_SIZE := by
  unfold fillBytes
  simp

/-- The Normal arm of `Encryptor::encrypt`
(src/src/player/conn/rtp/crypto.rs, lines 64-81). `none` models a
panic; `(A.sealFn nonce plain).1` is the in-place ciphertext and
`.2` the detached tag. -/
def Encryptor.encryptNormal (A : Aead) (pkt : Packet) :
    Option (EncryptorState × Packet) :=
  -- let mut nonce = [0u8; NONCE_SIZE];
  -- (&mut nonce[0..Packet::<T>::HEADER_LEN]).copy_from_slice(pkt.header());
  (pkt.header).bind fun hdr =>
  (writeSlice (List.replicate NONCE_SIZE 0) 0 hdr).bind fun nonce =>
  -- let tag = aead.encrypt_in_place_detached(&nonce, b"", &mut payload[..payload_len])
  (pkt.payloadSlice 0 pkt.payloadLen).bind fun plain =>
  (pkt.writePayload 0 (A.sealFn nonce plain).1).bind fun pkt1 =>
  -- pkt.tag_mut().copy_from_slice(&tag[..]);
  (pkt1.writeTag (A.sealFn nonce plain).2).bind fun pkt2 =>
  some (.normal, pkt2)

/-- The Suffix arm of `Encryptor::encrypt`
(src/src/player/conn/rtp/crypto.rs, lines 82-103).  The fresh 24-byte
nonce is `fillBytes (rng draws)`. -/
def Encryptor.encryptSuffix (A : Aead) (rng : Nat → List Nat) (draws : Nat)
    (pkt : Packet) : Option (EncryptorState × Packet) :=
  -- let mut nonce = [0u8; NONCE_SIZE]; rng.fill_bytes(&mut nonce);
  (pkt.payloadSlice 0 pkt.payloadLen).bind fun plain =>
  (pkt.writePayload 0 (A.sealFn (fillBytes (rng draws)) plain).1).bind fun pkt1 =>
  (pkt1.writeTag (A.sealFn (fillBytes (rng draws)) plain).2).bind fun pkt2 =>
  -- (&mut pkt.payload_mut()[payload_len..payload_len + NONCE_SIZE])
  --     .copy_from_slice(&nonce);
  (pkt2.writePayload pkt.payloadLen (fillBytes (rng draws))).bind fun pkt3 =>
  (pkt3.setPayloadLen (pkt.payloadLen + NONCE_SIZE)).bind fun pkt4 =>
  some (.suffix rng (draws + 1), pkt4)

/-- The Lite arm of `Encryptor::encrypt`
(src/src/player/conn/rtp/crypto.rs, lines 104-126).  The nonce is the
big-endian counter in bytes 0..4, zeros elsewhere; the counter then
wraps at 2^32 (`overflowing_add`). -/
def Encryptor.encryptLite (A : Aead) (nextNonce : Nat) (pkt : Packet) :
    Option (EncryptorState × Packet) :=
  -- (&mut nonce[0..4]).copy_from_slice(&next_nonce.to_be_bytes());
  (pkt.payloadSlice 0 pkt.payloadLen).bind fun plain =>
  (pkt.writePayload 0
    (A.sealFn (be32 nextNonce ++ List.replicate (NONCE_SIZE - 4) 0) plain).1).bind fun pkt1 =>
  (pkt1.writeTag
    (A.sealFn (be32 nextNonce ++ List.replicate (NONCE_SIZE - 4) 0) plain).2).bind fun pkt2 =>
  -- (&mut pkt.payload_mut()[payload_len..payload_len + 4])
  --     .copy_from_slice(&nonce[0..4]);
  (pkt2.writePayload pkt.payloadLen
    ((be32 nextNonce ++ List.replicate (NONCE_SIZE - 4) 0).take 4)).bind fun pkt3 =>
  (pkt3.setPayloadLen (pkt.payloadLen + 4)).bind fun pkt4 =>
  some (.lite ((nextNonce + 1) % 4294967296), pkt4)

/-- `Encryptor::encrypt` (src/src/player/conn/rtp/crypto.rs, lines
63-126; the copy embedded in src/src/player/conn/rtp.rs is identical).
`none` models a panic. -/
def Encryptor.encrypt (A : Aead) :
    EncryptorState → Packet → Option (EncryptorState × Packet)
  | .normal, pkt => Encryptor.encryptNormal A pkt
  | .suffix rng draws, pkt => Encryptor.encryptSuffix A rng draws pkt
  | .lite nextNonce, pkt => Encryptor.encryptLite A nextNonce pkt

/-! ### Success characterisations of the packet operations -/

theorem payloadSlice_some {p : Packet} {off len : Nat}
    (h : HEADER_LEN + off + len ≤ p.buf.length) :
    p.payloadSlice off len = some ((p.buf.drop (HEADER_LEN + off)).take len) := by
  unfold Packet.payloadSlice
  rw [if_pos ⟨by omega, h⟩]

theorem writePayload_some {p : Packet} {off : Nat} {src : List Nat}
    (h : HEADER_LEN + off + src.length ≤ p.buf.length) :
    ∃ q, p.writePayload off src = some q ∧
      q.buf.length = p.buf.length ∧ q.payloadLen = p.payloadLen := by
  unfold Packet.writePayload
  rw [if_pos (by omega : HEADER_LEN ≤ p.buf.length)]
  cases hw : writeSlice p.buf (HEADER_LEN + off) src with
  | none =>
      rw [writeSlice] at hw
      rw [if_pos h] at hw
      exact absurd hw (by simp)
  | some b =>
      exact ⟨{ p with buf := b }, by simp, writeSlice_length hw, rfl⟩

theorem writeTag_some {p : Packet} {src : List Nat}
    (h : HEADER_LEN ≤ p.buf.length) (hsrc : src.length = TAG_SIZE) :
    ∃ q, p.writeTag src = some q ∧
      q.buf.length = p.buf.length ∧ q.payloadLen = p.payloadLen := by
  unfold Packet.writeTag
  rw [if_pos ⟨by unfold HEADER_LEN TAG_SIZE at *; omega, hsrc⟩]
  cases hw : writeSlice p.buf 12 src with
  | none =>
      rw [writeSlice] at hw
      rw [if_pos (by unfold HEADER_LEN TAG_SIZE at *; omega)] at hw
      exact absurd hw (by simp)
  | some b =>
      exact ⟨{ p with buf := b }, by simp, writeSlice_length hw, rfl⟩

theorem setPayloadLen_some {p : Packet} {n : Nat}
    (h : HEADER_LEN + n ≤ p.buf.length) :
    p.setPayloadLen n = some { p with payloadLen := n } := by
  unfold Packet.setPayloadLen
  rw [if_pos h]

/-- The Normal arm always panics: it copies the `HEADER_LEN = 28` byte
header into the 24-byte nonce buffer, an out-of-bounds slice. -/
theorem encryptNormal_none (A : Aead) (pkt : Packet) :
    Encryptor.encryptNormal A pkt = none := by
  unfold Encryptor.encryptNormal
  cases hh : pkt.header with
  | none => simp
  | some hdr =>
      have hlen : hdr.length = HEADER_LEN := by
        unfold Packet.header at hh
        split at hh
        · injection hh with hh
          subst hh
          simp
          omega
        · exact absurd hh (by simp)
      have hw : writeSlice (List.replicate NONCE_SIZE 0) 0 hdr = none := by
        unfold writeSlice
        rw [hlen]
        simp [NONCE_SIZE, HEADER_LEN, TAG_SIZE]
      rw [Option.some_bind, hw]
      rfl

/-- C1: under the Normal nonce discipline `Encryptor::encrypt` is
claimed to use the 12-byte RTP header zero-padded to 24 bytes as the
nonce, append nothing, and return without panicking.  In fact the code
copies `Packet::HEADER_LEN = 28` header bytes into the 24-byte nonce
buffer, an out-of-bounds slice, so it panics on every packet. -/
theorem c1_normal_mode_encrypt_panics (A : Aead) (pkt : Packet) :
    Encryptor.encrypt A .normal pkt = none :=
  encryptNormal_none A pkt

/-- Characterisation of `Encryptor::encrypt` in Suffix mode: it panics
exactly when the buffer cannot hold header + payload + 24-byte nonce
appendix; on success the payload length grows by `NONCE_SIZE` and the
buffer capacity is unchanged. -/
theorem encrypt_suffix_spec (A : Aead) (rng : Nat → List Nat) (d : Nat) (pkt : Packet) :
    (Encryptor.encrypt A (.suffix rng d) pkt = none ↔
      pkt.buf.length < HEADER_LEN + pkt.payloadLen + NONCE_SIZE) ∧
    ∀ st' pkt', Encryptor.encrypt A (.suffix rng d) pkt = some (st', pkt') →
      pkt'.payloadLen = pkt.payloadLen + NONCE_SIZE ∧
      pkt'.buf.length = pkt.buf.length ∧
      st' = .suffix rng (d + 1) := by
  have hdispatch : Encryptor.encrypt A (.suffix rng d) pkt =
      Encryptor.encryptSuffix A rng d pkt := rfl
  by_cases hcap : HEADER_LEN + pkt.payloadLen + NONCE_SIZE ≤ pkt.buf.length
  · have hps := @payloadSlice_some pkt 0 pkt.payloadLen (by omega)
    set plain := (pkt.buf.drop (HEADER_LEN + 0)).take pkt.payloadLen with hplain
    have hplen : plain.length = pkt.payloadLen := by
      rw [hplain]
      simp
      omega
    set nonce := fillBytes (rng d) with hnonce
    obtain ⟨p1, hp1, hp1len, hp1pl⟩ := @writePayload_some pkt 0 (A.sealFn nonce plain).1
      (by rw [A.sealFn_length, hplen]; omega)
    obtain ⟨p2, hp2, hp2len, hp2pl⟩ := @writeTag_some p1 (A.sealFn nonce plain).2
      (by omega) (A.tagFn_length nonce plain)
    obtain ⟨p3, hp3, hp3len, hp3pl⟩ := @writePayload_some p2 pkt.payloadLen nonce
      (by rw [hp2len, hp1len, hnonce, fillBytes_length]; omega)
    have hp4 := setPayloadLen_some (p := p3) (n := pkt.payloadLen + NONCE_SIZE)
      (by rw [hp3len, hp2len, hp1len]; omega)
    have henc : Encryptor.encrypt A (.suffix rng d) pkt =
        some (.suffix rng (d + 1), { p3 with payloadLen := pkt.payloadLen + NONCE_SIZE }) := by
      rw [hdispatch]
      unfold Encryptor.encryptSuffix
      rw [hps, Option.some_bind, hp1, Option.some_bind, hp2,
        Option.some_bind, hp3, Option.some_bind, hp4, Option.some_bind]
    constructor
    · rw [henc]
      simp
      omega
    · intro st' pkt' hsome
      rw [henc] at hsome
      injection hsome with hsome
      injection hsome with h1 h2
      subst h2
      refine ⟨rfl, ?_, h1.symm⟩
      simp only []
      rw [hp3len, hp2len, hp1len]
  · have hnone : Encryptor.encrypt A (.suffix rng d) pkt = none := by
      rw [hdispatch]
      unfold Encryptor.encryptSuffix
      by_cases hsmall : HEADER_LEN + pkt.payloadLen ≤ pkt.buf.length
      · have hps := @payloadSlice_some pkt 0 pkt.payloadLen (by omega)
        set plain := (pkt.buf.drop (HEADER_LEN + 0)).take pkt.payloadLen with hplain
        have hplen : plain.length = pkt.payloadLen := by
          rw [hplain]
          simp
          omega
        set nonce := fillBytes (rng d) with hnonce
        obtain ⟨p1, hp1, hp1len, hp1pl⟩ := @writePayload_some pkt 0 (A.sealFn nonce plain).1
          (by rw [A.sealFn_length, hplen]; omega)
        obtain ⟨p2, hp2, hp2len, hp2pl⟩ := @writeTag_some p1 (A.sealFn nonce plain).2
          (by omega) (A.tagFn_length nonce plain)
        have hp3 : p2.writePayload pkt.payloadLen nonce = none := by
          unfold Packet.writePayload
          rw [if_pos (by omega : HEADER_LEN ≤ p2.buf.length)]
          have hw : writeSlice p2.buf (HEADER_LEN + pkt.payloadLen) nonce = none := by
            unfold writeSlice
            rw [if_neg]
            rw [hnonce, fillBytes_length, hp2len, hp1len]
            omega
          rw [hw]
          rfl
        rw [hps, Option.some_bind, hp1, Option.some_bind, hp2,
          Option.some_bind, hp3, Option.none_bind]
      · have hps : pkt.payloadSlice 0 pkt.payloadLen = none := by
          unfold Packet.payloadSlice
          rw [if_neg]
          omega
        rw [hps, Option.none_bind]
    refine ⟨by rw [hnone]; simp; omega, ?_⟩
    intro st' pkt' hsome
    rw [hnone] at hsome
    exact absurd hsome (by simp)

/-- Characterisation of `Encryptor::encrypt` in Lite mode: it panics
exactly when the buffer cannot hold header + payload + 4-byte nonce
appendix; on success the payload length grows by 4, the buffer
capacity is unchanged, and the counter wraps at 2^32. -/
theorem encrypt_lite_spec (A : Aead) (ctr : Nat) (pkt : Packet) :
    (Encryptor.encrypt A (.lite ctr) pkt = none ↔
      pkt.buf.length < HEADER_LEN + pkt.payloadLen + 4) ∧
    ∀ st' pkt', Encryptor.encrypt A (.lite ctr) pkt = some (st', pkt') →
      pkt'.payloadLen = pkt.payloadLen + 4 ∧
      pkt'.buf.length = pkt.buf.length ∧
      st' = .lite ((ctr + 1) % 4294967296) := by
  have hdispatch : Encryptor.encrypt A (.lite ctr) pkt =
      Encryptor.encryptLite A ctr pkt := rfl
  set nonce := be32 ctr ++ List.replicate (NONCE_SIZE - 4) 0 with hnonce
  have htake : (nonce.take 4).length = 4 := by
    rw [hnonce]
    simp [be32]
  by_cases hcap : HEADER_LEN + pkt.payloadLen + 4 ≤ pkt.buf.length
  · have hps := @payloadSlice_some pkt 0 pkt.payloadLen (by omega)
    set plain := (pkt.buf.drop (HEADER_LEN + 0)).take pkt.payloadLen with hplain
    have hplen : plain.length = pkt.payloadLen := by
      rw [hplain]
      simp
      omega
    obtain ⟨p1, hp1, hp1len, hp1pl⟩ := @writePayload_some pkt 0 (A.sealFn nonce plain).1
      (by rw [A.sealFn_length, hplen]; omega)
    obtain ⟨p2, hp2, hp2len, hp2pl⟩ := @writeTag_some p1 (A.sealFn nonce plain).2
      (by omega) (A.tagFn_length nonce plain)
    obtain ⟨p3, hp3, hp3len, hp3pl⟩ := @writePayload_some p2 pkt.payloadLen (nonce.take 4)
      (by rw [htake, hp2len, hp1len]; omega)
    have hp4 := setPayloadLen_some (p := p3) (n := pkt.payloadLen + 4)
      (by rw [hp3len, hp2len, hp1len]; omega)
    have henc : Encryptor.encrypt A (.lite ctr) pkt =
        some (.lite ((ctr + 1) % 4294967296),
          { p3 with payloadLen := pkt.payloadLen + 4 }) := by
      rw [hdispatch]
      unfold Encryptor.encryptLite
      rw [hps, Option.some_bind, hp1, Option.some_bind, hp2,
        Option.some_bind, hp3, Option.some_bind, hp4, Option.some_bind]
    constructor
    · rw [henc]
      simp
      omega
    · intro st' pkt' hsome
      rw [henc] at hsome
      injection hsome with hsome
      injection hsome with h1 h2
      subst h2
      refine ⟨rfl, ?_, h1.symm⟩
      simp only []
      rw [hp3len, hp2len, hp1len]
  · have hnone : Encryptor.encrypt A (.lite ctr) pkt = none := by
      rw [hdispatch]
      unfold Encryptor.encryptLite
      by_cases hsmall : HEADER_LEN + pkt.payloadLen ≤ pkt.buf.length
      · have hps := @payloadSlice_some pkt 0 pkt.payloadLen (by omega)
        set plain := (pkt.buf.drop (HEADER_LEN + 0)).take pkt.payloadLen with hplain
        have hplen : plain.length = pkt.payloadLen := by
          rw [hplain]
          simp
          omega
        obtain ⟨p1, hp1, hp1len, hp1pl⟩ := @writePayload_some pkt 0 (A.sealFn nonce plain).1
          (by rw [A.sealFn_length, hplen]; omega)
        obtain ⟨p2, hp2, hp2len, hp2pl⟩ := @writeTag_some p1 (A.sealFn nonce plain).2
          (by omega) (A.tagFn_length nonce plain)
        have hp3 : p2.writePayload pkt.payloadLen (nonce.take 4) = none := by
          unfold Packet.writePayload
          rw [if_pos (by omega : HEADER_LEN ≤ p2.buf.length)]
          have hw : writeSlice p2.buf (HEADER_LEN + pkt.payloadLen) (nonce.take 4) = none := by
            unfold writeSlice
            rw [if_neg]
            rw [htake, hp2len, hp1len]
            omega
          rw [hw]
          rfl
        rw [hps, Option.some_bind, hp1, Option.some_bind, hp2,
          Option.some_bind, hp3, Option.none_bind]
      · have hps : pkt.payloadSlice 0 pkt.payloadLen = none := by
          unfold Packet.payloadSlice
          rw [if_neg]
          omega
        rw [hps, Option.none_bind]
    refine ⟨by rw [hnone]; simp; omega, ?_⟩
    intro st' pkt' hsome
    rw [hnone] at hsome
    exact absurd hsome (by simp)

/-- C10: in Suffix and Lite modes `Encryptor::encrypt` appends the
nonce after the ciphertext by indexing past `payload_len`; it panics
exactly when `payload_len + appendix + HEADER_LEN` exceeds the buffer
capacity (appendix 24 for Suffix, 4 for Lite), and otherwise grows
`payload_len` by exactly the appendix size. -/
theorem c10_appendix_bounds (A : Aead) (rng : Nat → List Nat) (d ctr : Nat)
    (pkt : Packet) :
    ((Encryptor.encrypt A (.suffix rng d) pkt = none ↔
        pkt.buf.length < HEADER_LEN + pkt.payloadLen + NONCE_SIZE) ∧
      ∀ st' pkt', Encryptor.encrypt A (.suffix rng d) pkt = some (st', pkt') →
        pkt'.payloadLen = pkt.payloadLen + NONCE_SIZE) ∧
    ((Encryptor.encrypt A (.lite ctr) pkt = none ↔
        pkt.buf.length < HEADER_LEN + pkt.payloadLen + 4) ∧
      ∀ st' pkt', Encryptor.encrypt A (.lite ctr) pkt = some (st', pkt') →
        pkt'.payloadLen = pkt.payloadLen + 4) :=
  ⟨⟨(encrypt_suffix_spec A rng d pkt).1,
      fun st' pkt' h => ((encrypt_suffix_spec A rng d pkt).2 st' pkt' h).1⟩,
    ⟨(encrypt_lite_spec A ctr pkt).1,
      fun st' pkt' h => ((encrypt_lite_spec A ctr pkt).2 st' pkt' h).1⟩⟩

/-- A concrete packet (60-byte buffer, 4-byte payload) used to witness
the encryptor theorems on an explicit input. -/
def witPkt : Packet := { buf := List.replicate 60 0, payloadLen := 4 }

/-- Witness for `c10_appendix_bounds`: on the concrete 60-byte packet in
Lite mode, encryption succeeds and grows the payload length by 4. -/
theorem c10_appendix_bounds_witness :
    ({ buf := List.replicate 60 0, payloadLen := 8 } : Packet).payloadLen =
      witPkt.payloadLen + 4 :=
  (c10_appendix_bounds idAead (fun _ => []) 0 0 witPkt).2.2
    (.lite 1) { buf := List.replicate 60 0, payloadLen := 8 } (by rfl)

/-! ### Byte-preservation lemmas (header integrity) -/

theorem writePayload_getD_lt {p q : Packet} {off : Nat} {src : List Nat}
    (h : p.writePayload off src = some q) {i : Nat} (hi : i < HEADER_LEN) :
    q.buf.getD i 0 = p.buf.getD i 0 := by
  unfold Packet.writePayload at h
  split at h
  · cases hw : writeSlice p.buf (HEADER_LEN + off) src with
    | none => rw [hw] at h; exact absurd h (by simp)
    | some b =>
        rw [hw] at h
        injection h with h
        subst h
        exact writeSlice_getD_lt hw (by omega)
  · exact absurd h (by simp)

theorem writeTag_getD_lt {p q : Packet} {src : List Nat}
    (h : p.writeTag src = some q) {i : Nat} (hi : i < 12) :
    q.buf.getD i 0 = p.buf.getD i 0 := by
  unfold Packet.writeTag at h
  split at h
  · cases hw : writeSlice p.buf 12 src with
    | none => rw [hw] at h; exact absurd h (by simp)
    | some b =>
        rw [hw] at h
        injection h with h
        subst h
        exact writeSlice_getD_lt hw (by omega)
  · exact absurd h (by simp)

theorem setSequence_getD_lt {p q : Packet} {n : Nat}
    (h : p.setSequence n = some q) {i : Nat} (hi : i < 2) :
    q.buf.getD i 0 = p.buf.getD i 0 := by
  unfold Packet.setSequence at h
  cases hw : writeSlice p.buf 2 (be16 n) with
  | none => rw [hw] at h; exact absurd h (by simp)
  | some b =>
      rw [hw] at h
      injection h with h
      subst h
      exact writeSlice_getD_lt hw (by omega)

theorem setTimestamp_getD_lt {p q : Packet} {n : Nat}
    (h : p.setTimestamp n = some q) {i : Nat} (hi : i < 4) :
    q.buf.getD i 0 = p.buf.getD i 0 := by
  unfold Packet.setTimestamp at h
  cases hw : writeSlice p.buf 4 (be32 n) with
  | none => rw [hw] at h; exact absurd h (by simp)
  | some b =>
      rw [hw] at h
      injection h with h
      subst h
      exact writeSlice_getD_lt hw (by omega)

theorem setSsrc_getD_lt {p q : Packet} {n : Nat}
    (h : p.setSsrc n = some q) {i : Nat} (hi : i < 8) :
    q.buf.getD i 0 = p.buf.getD i 0 := by
  unfold Packet.setSsrc at h
  cases hw : writeSlice p.buf 8 (be32 n) with
  | none => rw [hw] at h; exact absurd h (by simp)
  | some b =>
      rw [hw] at h
      injection h with h
      subst h
      exact writeSlice_getD_lt hw (by omega)

theorem encryptSuffix_getD_lt {A : Aead} {rng : Nat → List Nat} {d : Nat}
    {pkt : Packet} {st' : EncryptorState} {q : Packet}
    (h : Encryptor.encryptSuffix A rng d pkt = some (st', q)) {i : Nat}
    (hi : i < 12) :
    q.buf.getD i 0 = pkt.buf.getD i 0 := by
  unfold Encryptor.encryptSuffix at h
  cases h1 : pkt.payloadSlice 0 pkt.payloadLen with
  | none => rw [h1, Option.none_bind] at h; exact absurd h (by simp)
  | some plain =>
  rw [h1, Option.some_bind] at h
  cases h2 : pkt.writePayload 0 (A.sealFn (fillBytes (rng d)) plain).1 with
  | none => rw [h2, Option.none_bind] at h; exact absurd h (by simp)
  | some p1 =>
  rw [h2, Option.some_bind] at h
  cases h3 : p1.writeTag (A.sealFn (fillBytes (rng d)) plain).2 with
  | none => rw [h3, Option.none_bind] at h; exact absurd h (by simp)
  | some p2 =>
  rw [h3, Option.some_bind] at h
  cases h4 : p2.writePayload pkt.payloadLen (fillBytes (rng d)) with
  | none => rw [h4, Option.none_bind] at h; exact absurd h (by simp)
  | some p3 =>
  rw [h4, Option.some_bind] at h
  cases h5 : p3.setPayloadLen (pkt.payloadLen + NONCE_SIZE) with
  | none => rw [h5, Option.none_bind] at h; exact absurd h (by simp)
  | some p4 =>
  rw [h5, Option.some_bind] at h
  injection h with h
  injection h with hst hq
  subst hq
  obtain ⟨-, hbuf, -⟩ := setPayloadLen_eq_some h5
  rw [hbuf]
  rw [writePayload_getD_lt h4 (by unfold HEADER_LEN TAG_SIZE; omega)]
  rw [writeTag_getD_lt h3 hi]
  rw [writePayload_getD_lt h2 (by unfold HEADER_LEN TAG_SIZE; omega)]

theorem encryptLite_getD_lt {A : Aead} {ctr : Nat}
    {pkt : Packet} {st' : EncryptorState} {q : Packet}
    (h : Encryptor.encryptLite A ctr pkt = some (st', q)) {i : Nat}
    (hi : i < 12) :
    q.buf.getD i 0 = pkt.buf.getD i 0 := by
  unfold Encryptor.encryptLite at h
  cases h1 : pkt.payloadSlice 0 pkt.payloadLen with
  | none => rw [h1, Option.none_bind] at h; exact absurd h (by simp)
  | some plain =>
  rw [h1, Option.some_bind] at h
  cases h2 : pkt.writePayload 0
      (A.sealFn (be32 ctr ++ List.replicate (NONCE_SIZE - 4) 0) plain).1 with
  | none => rw [h2, Option.none_bind] at h; exact absurd h (by simp)
  | some p1 =>
  rw [h2, Option.some_bind] at h
  cases h3 : p1.writeTag
      (A.sealFn (be32 ctr ++ List.replicate (NONCE_SIZE - 4) 0) plain).2 with
  | none => rw [h3, Option.none_bind] at h; exact absurd h (by simp)
  | some p2 =>
  rw [h3, Option.some_bind] at h
  cases h4 : p2.writePayload pkt.payloadLen
      ((be32 ctr ++ List.replicate (NONCE_SIZE - 4) 0).take 4) with
  | none => rw [h4, Option.none_bind] at h; exact absurd h (by simp)
  | some p3 =>
  rw [h4, Option.some_bind] at h
  cases h5 : p3.setPayloadLen (pkt.payloadLen + 4) with
  | none => rw [h5, Option.none_bind] at h; exact absurd h (by simp)
  | some p4 =>
  rw [h5, Option.some_bind] at h
  injection h with h
  injection h with hst hq
  subst hq
  obtain ⟨-, hbuf, -⟩ := setPayloadLen_eq_some h5
  rw [hbuf]
  rw [writePayload_getD_lt h4 (by unfold HEADER_LEN TAG_SIZE; omega)]
  rw [writeTag_getD_lt h3 hi]
  rw [writePayload_getD_lt h2 (by unfold HEADER_LEN TAG_SIZE; omega)]

theorem encrypt_getD_lt {A : Aead} {st st' : EncryptorState} {pkt q : Packet}
    (h : Encryptor.encrypt A st pkt = some (st', q)) {i : Nat} (hi : i < 12) :
    q.buf.getD i 0 = pkt.buf.getD i 0 := by
  cases st with
  | normal =>
      rw [show Encryptor.encrypt A .normal pkt = Encryptor.encryptNormal A pkt
        from rfl, encryptNormal_none] at h
      exact absurd h (by simp)
  | suffix rng d => exact encryptSuffix_getD_lt h hi
  | lite ctr => exact encryptLite_getD_lt h hi

/-! ### C9: header bytes survive every packet operation -/

/-- Any of the mutating operations offered by `Packet` (and the
encryptor, which writes through `payload_mut`/`tag_mut`). -/
inductive PacketOp where
  | setSequence (n : Nat)
  | setTimestamp (n : Nat)
  | setSsrc (n : Nat)
  | setPayloadLen (n : Nat)
  | writeTag (src : List Nat)
  | writePayload (off : Nat) (src : List Nat)
  | encrypt (st : EncryptorState)

/-- Apply one packet operation (the encryptor state resulting from an
`encrypt` op is discarded: only the packet matters here). -/
def applyOp (A : Aead) (p : Packet) : PacketOp → Option Packet
  | .setSequence n => p.setSequence n
  | .setTimestamp n => p.setTimestamp n
  | .setSsrc n => p.setSsrc n
  | .setPayloadLen n => p.setPayloadLen n
  | .writeTag src => p.writeTag src
  | .writePayload off src => p.writePayload off src
  | .encrypt st => (Encryptor.encrypt A st p).map (·.2)

/-- Apply a sequence of packet operations. -/
def applyOps (A : Aead) (p : Packet) : List PacketOp → Option Packet
  | [] => some p
  | op :: ops => (applyOp A p op).bind fun q => applyOps A q ops

theorem applyOp_getD01 {A : Aead} {p q : Packet} {op : PacketOp}
    (h : applyOp A p op = some q) {i : Nat} (hi : i < 2) :
    q.buf.getD i 0 = p.buf.getD i 0 := by
  cases op with
  | setSequence n => exact setSequence_getD_lt h hi
  | setTimestamp n => exact setTimestamp_getD_lt h (by omega)
  | setSsrc n => exact setSsrc_getD_lt h (by omega)
  | setPayloadLen n =>
      obtain ⟨-, hbuf, -⟩ := setPayloadLen_eq_some h
      rw [hbuf]
  | writeTag src => exact writeTag_getD_lt h (by omega)
  | writePayload off src => exact writePayload_getD_lt h (by unfold HEADER_LEN TAG_SIZE; omega)
  | encrypt st =>
      simp only [applyOp] at h
      cases he : Encryptor.encrypt A st p with
      | none => rw [he] at h; exact absurd h (by simp)
      | some r =>
          rw [he] at h
          simp only [Option.map] at h
          injection h with h
          subst h
          exact @encrypt_getD_lt A st r.1 p r.2 (by rw [he]) i (by omega)

theorem applyOps_getD01 {A : Aead} {p q : Packet} {ops : List PacketOp}
    (h : applyOps A p ops = some q) {i : Nat} (hi : i < 2) :
    q.buf.getD i 0 = p.buf.getD i 0 := by
  induction ops generalizing p with
  | nil =>
      unfold applyOps at h
      injection h with h
      subst h
      rfl
  | cons op ops ih =>
      unfold applyOps at h
      cases h1 : applyOp A p op with
      | none => rw [h1, Option.none_bind] at h; exact absurd h (by simp)
      | some r =>
          rw [h1, Option.some_bind] at h
          rw [ih h, applyOp_getD01 h1 hi]

theorem new_getD0 {buf : List Nat} {p : Packet} (h : Packet.new buf = some p) :
    p.buf.getD 0 0 = 0x80 ∧ p.buf.getD 1 0 = 0x78 := by
  unfold Packet.new at h
  split at h
  · rename_i hc
    injection h with h
    subst h
    have hlen : 2 ≤ buf.length := by
      unfold HEADER_LEN TAG_SIZE at hc
      omega
    constructor
    · show (((buf.set 0 0x80).set 1 0x78).getD 0 0) = 0x80
      rw [List.getD_eq_getElem?_getD, List.getElem?_set_ne (by omega),
        List.getElem?_set_self (by omega)]
      rfl
    · show (((buf.set 0 0x80).set 1 0x78).getD 1 0) = 0x78
      rw [List.getD_eq_getElem?_getD, List.getElem?_set_self (by simp; omega)]
      rfl
  · exact absurd h (by simp)

/-- C9: `Packet::new` initialises bytes 0..2 to `0x80 0x78`; no
subsequent operation (header setters, payload writes through
`payload_mut`, `set_payload_len`, the encryptor's payload/tag writes)
overwrites them, payload and tag writes cannot touch bytes 0..12, and
`set_payload_len` does not write the buffer at all — so every wire
view of the packet starts with `0x80 0x78`. -/
theorem c9_header_integrity (A : Aead) (buf : List Nat) (ops : List PacketOp)
    (p q : Packet) (hnew : Packet.new buf = some p)
    (happ : applyOps A p ops = some q) :
    (q.buf.getD 0 0 = 0x80 ∧ q.buf.getD 1 0 = 0x78) ∧
    (q.wire.getD 0 0 = 0x80 ∧ q.wire.getD 1 0 = 0x78) ∧
    (∀ (r s : Packet) (off : Nat) (src : List Nat),
      r.writePayload off src = some s →
      ∀ i < 12, s.buf.getD i 0 = r.buf.getD i 0) ∧
    (∀ (r s : Packet) (src : List Nat), r.writeTag src = some s →
      ∀ i < 12, s.buf.getD i 0 = r.buf.getD i 0) ∧
    (∀ (r s : Packet) (n : Nat), r.setPayloadLen n = some s →
      s.buf = r.buf) := by
  obtain ⟨h0, h1⟩ := new_getD0 hnew
  have hq0 : q.buf.getD 0 0 = 0x80 := by
    rw [applyOps_getD01 happ (by omega), h0]
  have hq1 : q.buf.getD 1 0 = 0x78 := by
    rw [applyOps_getD01 happ (by omega), h1]
  refine ⟨⟨hq0, hq1⟩, ⟨?_, ?_⟩, ?_, ?_, ?_⟩
  · unfold Packet.wire
    rw [List.getD_eq_getElem?_getD, List.getElem?_take,
      if_pos (by unfold HEADER_LEN TAG_SIZE; omega), ← List.getD_eq_getElem?_getD, hq0]
  · unfold Packet.wire
    rw [List.getD_eq_getElem?_getD, List.getElem?_take,
      if_pos (by unfold HEADER_LEN TAG_SIZE; omega), ← List.getD_eq_getElem?_getD, hq1]
  · intro r s off src hw i hi
    exact writePayload_getD_lt hw (by unfold HEADER_LEN TAG_SIZE; omega)
  · intro r s src hw i hi
    exact writeTag_getD_lt hw hi
  · intro r s n hw
    exact (setPayloadLen_eq_some hw).2.1

/-- Concrete operation sequence used to witness `c9_header_integrity`. -/
def c9ops : List PacketOp :=
  [.setSequence 513, .writePayload 0 [9], .setPayloadLen 1, .encrypt (.lite 0)]

/-- The packet produced by `Packet.new` on a 40-byte zero buffer. -/
def c9p : Packet :=
  { buf := ((List.replicate 40 0).set 0 0x80).set 1 0x78, payloadLen := 0 }

/-- The packet after running `c9ops` on `c9p`. -/
def c9q : Packet :=
  { buf := [128, 120, 2, 1] ++ List.replicate 24 0 ++ [9] ++ List.replicate 11 0,
    payloadLen := 5 }

/-- Witness for `c9_header_integrity` on a concrete buffer and a
concrete operation sequence. -/
theorem c9_header_integrity_witness :
    (c9q.buf.getD 0 0 = 0x80 ∧ c9q.buf.getD 1 0 = 0x78) ∧
    (c9q.wire.getD 0 0 = 0x80 ∧ c9q.wire.getD 1 0 = 0x78) :=
  ⟨(c9_header_integrity idAead (List.replicate 40 0) c9ops c9p c9q
      (by rfl) (by rfl)).1,
    (c9_header_integrity idAead (List.replicate 40 0) c9ops c9p c9q
      (by rfl) (by rfl)).2.1⟩

/-! ## RTP Socket (src/src/voice/rtp/mod.rs, `Socket::send`)

The UDP socket is abstracted by a per-call success flag `udpOk`; the
encryptor travels inside the socket as in the source.  A `SendResult`
is `panic` (modelled `none` inside), `err` (encrypt or UDP error,
surfaced as `Err` in Rust) or `ok wire` carrying the datagram bytes
(`packet.as_ref()`). -/

inductive SendResult where
  | err
  | ok (wire : List Nat)

/-- RTP `Socket` state: encryptor plus the `sequence`, `timestamp` and
`ssrc` counters. -/
structure Socket where
  enc : EncryptorState
  sequence : Nat
  timestamp : Nat
  ssrc : Nat

/-- `Socket::send` (src/src/voice/rtp/mod.rs, lines 46-68): write
sequence/timestamp/ssrc into the header, advance the counters
(`overflowing_add`, performed before encryption), encrypt in place,
then send one UDP datagram.  `none` models a panic inside `send`;
`some (s, .err)` an `Err` return (encryption or UDP failure);
`some (s, .ok wire)` a successful datagram. -/
def Socket.send (A : Aead) (udpOk : Bool) (s : Socket) (pkt : Packet) :
    Option (Socket × SendResult) :=
  -- packet.set_sequence(self.sequence); packet.set_timestamp(self.timestamp);
  -- packet.set_ssrc(self.ssrc);
  (pkt.setSequence s.sequence).bind fun p1 =>
  (p1.setTimestamp s.timestamp).bind fun p2 =>
  (p2.setSsrc s.ssrc).bind fun p3 =>
  -- self.sequence = self.sequence.overflowing_add(1).0;
  -- self.timestamp = self.timestamp.overflowing_add(MONO_FRAME_SIZE as u32).0;
  -- self.encryptor.encrypt(packet)?;
  (Encryptor.encrypt A s.enc p3).bind fun r =>
  -- self.udp.send(packet.as_ref()).await?;
  some ({ enc := r.1,
          sequence := (s.sequence + 1) % 65536,
          timestamp := (s.timestamp + MONO_FRAME_SIZE) % 4294967296,
          ssrc := s.ssrc },
        if udpOk then SendResult.ok r.2.wire else SendResult.err)

theorem setSequence_eq_some {p q : Packet} {n : Nat}
    (h : p.setSequence n = some q) :
    writeSlice p.buf 2 (be16 n) = some q.buf ∧ q.payloadLen = p.payloadLen := by
  unfold Packet.setSequence at h
  cases hw : writeSlice p.buf 2 (be16 n) with
  | none => rw [hw] at h; exact absurd h (by simp)
  | some b =>
      rw [hw] at h
      simp only [Option.map] at h
      injection h with h
      subst h
      exact ⟨rfl, rfl⟩

theorem setTimestamp_eq_some {p q : Packet} {n : Nat}
    (h : p.setTimestamp n = some q) :
    writeSlice p.buf 4 (be32 n) = some q.buf ∧ q.payloadLen = p.payloadLen := by
  unfold Packet.setTimestamp at h
  cases hw : writeSlice p.buf 4 (be32 n) with
  | none => rw [hw] at h; exact absurd h (by simp)
  | some b =>
      rw [hw] at h
      simp only [Option.map] at h
      injection h with h
      subst h
      exact ⟨rfl, rfl⟩

theorem setSsrc_eq_some {p q : Packet} {n : Nat}
    (h : p.setSsrc n = some q) :
    writeSlice p.buf 8 (be32 n) = some q.buf ∧ q.payloadLen = p.payloadLen := by
  unfold Packet.setSsrc at h
  cases hw : writeSlice p.buf 8 (be32 n) with
  | none => rw [hw] at h; exact absurd h (by simp)
  | some b =>
      rw [hw] at h
      simp only [Option.map] at h
      injection h with h
      subst h
      exact ⟨rfl, rfl⟩

/-- On a successful `send`, the datagram carries the pre-call
`sequence`/`timestamp` big-endian at bytes 2..4 and 4..8, and the
counters advance by exactly 1 and `MONO_FRAME_SIZE` (wrapping). -/
theorem send_ok_spec {A : Aead} {u : Bool} {s s' : Socket} {pkt : Packet}
    {w : List Nat} (h : Socket.send A u s pkt = some (s', .ok w)) :
    s'.sequence = (s.sequence + 1) % 65536 ∧
    s'.timestamp = (s.timestamp + MONO_FRAME_SIZE) % 4294967296 ∧
    s'.ssrc = s.ssrc ∧
    w.getD 2 0 = s.sequence / 256 % 256 ∧
    w.getD 3 0 = s.sequence % 256 ∧
    w.getD 4 0 = s.timestamp / 16777216 % 256 ∧
    w.getD 5 0 = s.timestamp / 65536 % 256 ∧
    w.getD 6 0 = s.timestamp / 256 % 256 ∧
    w.getD 7 0 = s.timestamp % 256 := by
  unfold Socket.send at h
  cases h1 : pkt.setSequence s.sequence with
  | none => rw [h1, Option.none_bind] at h; exact absurd h (by simp)
  | some p1 =>
  rw [h1, Option.some_bind] at h
  cases h2 : p1.setTimestamp s.timestamp with
  | none => rw [h2, Option.none_bind] at h; exact absurd h (by simp)
  | some p2 =>
  rw [h2, Option.some_bind] at h
  cases h3 : p2.setSsrc s.ssrc with
  | none => rw [h3, Option.none_bind] at h; exact absurd h (by simp)
  | some p3 =>
  rw [h3, Option.some_bind] at h
  cases h4 : Encryptor.encrypt A s.enc p3 with
  | none => rw [h4, Option.none_bind] at h; exact absurd h (by simp)
  | some r =>
  rw [h4, Option.some_bind] at h
  injection h with h
  cases hu : u with
  | false =>
      rw [hu, if_neg (by simp)] at h
      injection h with _ hbad
      cases hbad
  | true =>
  rw [hu, if_pos rfl] at h
  injection h with hs hw'
  injection hw' with hw'
  subst hw'
  obtain ⟨hw1, hpl1⟩ := setSequence_eq_some h1
  obtain ⟨hw2, hpl2⟩ := setTimestamp_eq_some h2
  obtain ⟨hw3, hpl3⟩ := setSsrc_eq_some h3
  have hb1 : (writeSlice p1.buf 4 (be32 s.timestamp)).isSome := by
    rw [hw2]; rfl
  -- bytes 2..4 of p1 are be16 sequence
  have hseq2 : p1.buf.getD 2 0 = s.sequence / 256 % 256 :=
    writeSlice_getD_mem hw1 (by omega) (by rw [be16_length]; omega)
  have hseq3 : p1.buf.getD 3 0 = s.sequence % 256 :=
    writeSlice_getD_mem hw1 (by omega) (by rw [be16_length]; omega)
  -- bytes 4..8 of p2 are be32 timestamp; bytes 2..4 preserved
  have hts : ∀ j, j < 4 → p2.buf.getD (4 + j) 0 = (be32 s.timestamp).getD j 0 := by
    intro j hj
    have := writeSlice_getD_mem hw2 (i := 4 + j) (by omega)
      (by rw [be32_length]; omega)
    rw [this]
    congr 1
    omega
  have hp2keep : ∀ j, j < 4 → p2.buf.getD j 0 = p1.buf.getD j 0 := by
    intro j hj
    exact writeSlice_getD_lt hw2 hj
  -- p3 preserves bytes < 8
  have hp3keep : ∀ j, j < 8 → p3.buf.getD j 0 = p2.buf.getD j 0 := by
    intro j hj
    exact writeSlice_getD_lt hw3 hj
  -- encrypted packet preserves bytes < 12
  have hp4keep : ∀ j, j < 12 → r.2.buf.getD j 0 = p3.buf.getD j 0 := by
    intro j hj
    exact encrypt_getD_lt (by rw [h4]) hj
  -- the wire view keeps bytes < HEADER_LEN
  have hwire : ∀ j, j < HEADER_LEN → r.2.wire.getD j 0 = r.2.buf.getD j 0 := by
    intro j hj
    unfold Packet.wire
    rw [List.getD_eq_getElem?_getD, List.getElem?_take, if_pos (by omega),
      ← List.getD_eq_getElem?_getD]
  subst hs
  refine ⟨rfl, rfl, rfl, ?_, ?_, ?_, ?_, ?_, ?_⟩
  · rw [hwire 2 (by unfold HEADER_LEN TAG_SIZE; omega), hp4keep 2 (by omega),
      hp3keep 2 (by omega), hp2keep 2 (by omega), hseq2]
  · rw [hwire 3 (by unfold HEADER_LEN TAG_SIZE; omega), hp4keep 3 (by omega),
      hp3keep 3 (by omega), hp2keep 3 (by omega), hseq3]
  · rw [hwire 4 (by unfold HEADER_LEN TAG_SIZE; omega), hp4keep 4 (by omega),
      hp3keep 4 (by omega), show (4 : Nat) = 4 + 0 from rfl, hts 0 (by omega)]
    rfl
  · rw [hwire 5 (by unfold HEADER_LEN TAG_SIZE; omega), hp4keep 5 (by omega),
      hp3keep 5 (by omega), show (5 : Nat) = 4 + 1 from rfl, hts 1 (by omega)]
    rfl
  · rw [hwire 6 (by unfold HEADER_LEN TAG_SIZE; omega), hp4keep 6 (by omega),
      hp3keep 6 (by omega), show (6 : Nat) = 4 + 2 from rfl, hts 2 (by omega)]
    rfl
  · rw [hwire 7 (by unfold HEADER_LEN TAG_SIZE; omega), hp4keep 7 (by omega),
      hp3keep 7 (by omega), show (7 : Nat) = 4 + 3 from rfl, hts 3 (by omega)]
    rfl

/-- C3: for two consecutive successful `Socket::send` calls starting
from sequence `s` and timestamp `t`, the two datagrams carry headers
`(s, t)` and `((s+1) mod 2^16, (t+960) mod 2^32)` (big-endian at bytes
2..4 and 4..8), and the counters advance by exactly `(1, 960)` per
successful send — no clock is involved anywhere in `send`. -/
theorem c3_rtp_monotonicity (A : Aead) (u1 u2 : Bool)
    (sock sock1 sock2 : Socket) (pkt1 pkt2 : Packet) (w1 w2 : List Nat)
    (hseq : sock.sequence < 65536) (hts : sock.timestamp < 4294967296)
    (h1 : Socket.send A u1 sock pkt1 = some (sock1, .ok w1))
    (h2 : Socket.send A u2 sock1 pkt2 = some (sock2, .ok w2)) :
    w1.getD 2 0 * 256 + w1.getD 3 0 = sock.sequence ∧
    ((w1.getD 4 0 * 256 + w1.getD 5 0) * 256 + w1.getD 6 0) * 256 + w1.getD 7 0
      = sock.timestamp ∧
    w2.getD 2 0 * 256 + w2.getD 3 0 = (sock.sequence + 1) % 65536 ∧
    ((w2.getD 4 0 * 256 + w2.getD 5 0) * 256 + w2.getD 6 0) * 256 + w2.getD 7 0
      = (sock.timestamp + MONO_FRAME_SIZE) % 4294967296 ∧
    sock1.sequence = (sock.sequence + 1) % 65536 ∧
    sock1.timestamp = (sock.timestamp + MONO_FRAME_SIZE) % 4294967296 ∧
    sock2.sequence = (sock1.sequence + 1) % 65536 ∧
    sock2.timestamp = (sock1.timestamp + MONO_FRAME_SIZE) % 4294967296 := by
  obtain ⟨ha1, ha2, ha3, hb2, hb3, hb4, hb5, hb6, hb7⟩ := send_ok_spec h1
  obtain ⟨hc1, hc2, hc3, hd2, hd3, hd4, hd5, hd6, hd7⟩ := send_ok_spec h2
  have hs1 : sock1.sequence < 65536 := by omega
  have ht1 : sock1.timestamp < 4294967296 := by omega
  refine ⟨?_, ?_, ?_, ?_, ha1, ha2, hc1, hc2⟩
  · rw [hb2, hb3]
    omega
  · rw [hb4, hb5, hb6, hb7]
    omega
  · rw [hd2, hd3, ← ha1]
    omega
  · rw [hd4, hd5, hd6, hd7, ← ha2]
    omega

/-- Initial socket for the concrete two-send witness run. -/
def c3s0 : Socket := { enc := .lite 0, sequence := 0, timestamp := 0, ssrc := 5 }

/-- Socket state after the first send. -/
def c3s1 : Socket := { enc := .lite 1, sequence := 1, timestamp := 960, ssrc := 5 }

/-- Socket state after the second send. -/
def c3s2 : Socket := { enc := .lite 2, sequence := 2, timestamp := 1920, ssrc := 5 }

/-- First datagram of the witness run. -/
def c3w1 : List Nat :=
  [128, 120, 0, 0, 0, 0, 0, 0, 0, 0, 0, 5] ++ List.replicate 20 0

/-- Second datagram of the witness run. -/
def c3w2 : List Nat :=
  [128, 120, 0, 1, 0, 0, 3, 192, 0, 0, 0, 5] ++ List.replicate 19 0 ++ [1]

/-- Witness for `c3_rtp_monotonicity` on a concrete two-send run in
Lite mode. -/
theorem c3_rtp_monotonicity_witness :
    c3w1.getD 2 0 * 256 + c3w1.getD 3 0 = c3s0.sequence ∧
    ((c3w1.getD 4 0 * 256 + c3w1.getD 5 0) * 256 + c3w1.getD 6 0) * 256 + c3w1.getD 7 0
      = c3s0.timestamp ∧
    c3w2.getD 2 0 * 256 + c3w2.getD 3 0 = (c3s0.sequence + 1) % 65536 ∧
    ((c3w2.getD 4 0 * 256 + c3w2.getD 5 0) * 256 + c3w2.getD 6 0) * 256 + c3w2.getD 7 0
      = (c3s0.timestamp + MONO_FRAME_SIZE) % 4294967296 ∧
    c3s1.sequence = (c3s0.sequence + 1) % 65536 ∧
    c3s1.timestamp = (c3s0.timestamp + MONO_FRAME_SIZE) % 4294967296 ∧
    c3s2.sequence = (c3s1.sequence + 1) % 65536 ∧
    c3s2.timestamp = (c3s1.timestamp + MONO_FRAME_SIZE) % 4294967296 :=
  c3_rtp_monotonicity idAead true true c3s0 c3s1 c3s2 c9p c9p c3w1 c3w2
    (by decide) (by decide) (by rfl) (by rfl)

/-! ## Handshake encryption-mode selection (src/src/voice/ws/mod.rs,
lines 209-229)

The Ready payload's `modes` list is searched with the preference
lite > suffix > normal; the result of the find chain is `.unwrap()`ed
and only then matched, with a dead `UnsupportedEncryptionMode` arm for
`Other`. -/

/-- `payload::EncryptionMode` (src/src/voice/ws/payload.rs). -/
inductive WsEncryptionMode where
  | normal
  | suffix
  | lite
  | other (s : String)
  deriving DecidableEq, Repr

/-- `rtp::EncryptionMode` (the crypto-side enum of the voice tree). -/
inductive RtpEncryptionMode where
  | normal
  | suffix
  | lite
  deriving DecidableEq, Repr

/-- The find chain of `Connection::handshake`:
`modes.iter().find(Lite).or_else(find Suffix).or_else(find Normal)`. -/
def chooseMode (modes : List WsEncryptionMode) : Option WsEncryptionMode :=
  ((modes.find? (fun m => decide (m = WsEncryptionMode.lite))).or
    (modes.find? (fun m => decide (m = WsEncryptionMode.suffix)))).or
    (modes.find? (fun m => decide (m = WsEncryptionMode.normal)))

/-- Result of the mode-selection step: `panic` models the `.unwrap()`
on `None`; `errUnsupported` is the (dead) arm returning
`ProtocolError::UnsupportedEncryptionMode`. -/
inductive ModeSelection where
  | panic
  | ok (mode : RtpEncryptionMode)
  | errUnsupported (mode : WsEncryptionMode)
  deriving DecidableEq, Repr

/-- The mode-selection step of `Connection::handshake`
(src/src/voice/ws/mod.rs, lines 211-229). -/
def selectEncryptionMode (modes : List WsEncryptionMode) : ModeSelection :=
  match chooseMode modes with
  | none => .panic               -- .cloned().unwrap()
  | some .normal => .ok .normal
  | some .suffix => .ok .suffix
  | some .lite => .ok .lite
  | some (.other s) => .errUnsupported (.other s)

theorem find?_beq_mem {l : List WsEncryptionMode} {a : WsEncryptionMode}
    (h : a ∈ l) : l.find? (fun m => decide (m = a)) = some a := by
  induction l with
  | nil => cases h
  | cons x xs ih =>
      by_cases hx : x = a
      · subst hx
        exact List.find?_cons_of_pos _ (by simp)
      · rw [List.find?_cons_of_neg _ (by simp [hx])]
        cases h with
        | head => exact absurd rfl hx
        | tail _ h => exact ih h

theorem find?_beq_not_mem {l : List WsEncryptionMode} {a : WsEncryptionMode}
    (h : a ∉ l) : l.find? (fun m => decide (m = a)) = none := by
  rw [List.find?_eq_none]
  intro x hx
  simp only [decide_eq_true_eq]
  intro hxa
  exact h (hxa ▸ hx)

/-- C2: when the Ready modes list contains none of Lite, Suffix or
Normal, the code *panics* at `.cloned().unwrap()` instead of returning
`ProtocolError::UnsupportedEncryptionMode` (that arm is dead code);
when at least one is present, the preference order lite > suffix >
normal is honoured. -/
theorem c2_mode_selection (modes : List WsEncryptionMode) :
    (selectEncryptionMode [WsEncryptionMode.other "aead_aes256_gcm"] =
      .panic) ∧
    (WsEncryptionMode.lite ∈ modes → selectEncryptionMode modes = .ok .lite) ∧
    (WsEncryptionMode.lite ∉ modes → WsEncryptionMode.suffix ∈ modes →
      selectEncryptionMode modes = .ok .suffix) ∧
    (WsEncryptionMode.lite ∉ modes → WsEncryptionMode.suffix ∉ modes →
      WsEncryptionMode.normal ∈ modes →
      selectEncryptionMode modes = .ok .normal) ∧
    ((∀ m ∈ modes, m ≠ .lite ∧ m ≠ .suffix ∧ m ≠ .normal) →
      selectEncryptionMode modes = .panic) := by
  refine ⟨by decide, ?_, ?_, ?_, ?_⟩
  · intro h
    unfold selectEncryptionMode chooseMode
    rw [find?_beq_mem h]
    rfl
  · intro hl hs
    unfold selectEncryptionMode chooseMode
    rw [find?_beq_not_mem hl, find?_beq_mem hs]
    rfl
  · intro hl hs hn
    unfold selectEncryptionMode chooseMode
    rw [find?_beq_not_mem hl, find?_beq_not_mem hs, find?_beq_mem hn]
    rfl
  · intro h
    unfold selectEncryptionMode chooseMode
    rw [find?_beq_not_mem (fun hm => ((h _ hm).1 rfl)),
      find?_beq_not_mem (fun hm => ((h _ hm).2.1 rfl)),
      find?_beq_not_mem (fun hm => ((h _ hm).2.2 rfl))]
    rfl

/-- Witness for `c2_mode_selection`: the panicking input, plus the
suffix-preference branch on `["aead_aes256_gcm", suffix, normal]`. -/
theorem c2_mode_selection_witness :
    selectEncryptionMode [WsEncryptionMode.other "aead_aes256_gcm"] = .panic ∧
    selectEncryptionMode
      [WsEncryptionMode.other "aead_aes256_gcm", WsEncryptionMode.suffix,
        WsEncryptionMode.normal] = .ok .suffix :=
  ⟨(c2_mode_selection []).1,
    (c2_mode_selection
      [WsEncryptionMode.other "aead_aes256_gcm", WsEncryptionMode.suffix,
        WsEncryptionMode.normal]).2.2.1 (by decide) (by decide)⟩

/-! ## Packet streamer (src/src/voice/streamer.rs)

Only the control state matters for the C5/C6 claims: presence of a
source, the `waiting_for_source` flag, the silence-frame counter, the
`ready` flag and the `next_packet` deadline (milliseconds).  A
scripted `SourceRead` models one `source.read(...)` outcome; `timeout`
stands for a read that exceeds its deadline (in the waiting branch,
where no deadline exists, it stands for a read that never completes,
blocking the future). -/

/-- `TIMESTEP_LENGTH` = 20 ms. -/
def TIMESTEP_LENGTH : Nat := 20

/-- Control state of `PacketStreamer`. -/
structure PacketStreamer where
  hasSource : Bool
  waiting : Bool
  silence : Nat
  ready : Bool
  nextPacket : Nat
  deriving DecidableEq, Repr

/-- `PacketStreamer::new`: no source, `waiting_for_source = true`,
no silence frames, not ready. -/
def PacketStreamer.init (now : Nat) : PacketStreamer :=
  { hasSource := false, waiting := true, silence := 0, ready := false,
    nextPacket := now }

/-- `PacketStreamer::wait_for_source` (lines 223-228): add 5 silence
frames only on the transition out of streaming. -/
def waitForSource (s : PacketStreamer) : PacketStreamer :=
  if !s.waiting then { s with waiting := true, silence := s.silence + 5 }
  else s

/-- `PacketStreamer::source`: `wait_for_source()` then install. -/
def sourceInstall (s : PacketStreamer) : PacketStreamer :=
  { waitForSource s with hasSource := true }

/-- `PacketStreamer::take_source`: `wait_for_source()` then remove. -/
def takeSource (s : PacketStreamer) : PacketStreamer :=
  { waitForSource s with hasSource := false }

/-- `Status` returned by `PacketStreamer::stream`. -/
inductive Status where
  | started (ssrc : Nat)
  | stopped (ssrc : Nat)
  deriving DecidableEq, Repr

/-- One scripted outcome of `source.read(...)`. -/
inductive SourceRead where
  | ok (len : Nat)
  | err
  | timeout
  deriving DecidableEq, Repr

/-- Result of one pass of `PacketStreamer::next`: a status returned to
the caller, continue looping, block forever (`pending()`), or
propagate an error. -/
inductive NextOut where
  | emit (st : Status)
  | cont
  | blocked
  | errored
  deriving DecidableEq, Repr

/-- `PacketStreamer::next` / `next_from_source`
(src/src/voice/streamer.rs, lines 136-221). -/
def nextStep (s : PacketStreamer) (now : Nat) (r : SourceRead) (ssrc : Nat) :
    PacketStreamer × NextOut :=
  if 0 < s.silence then
    -- silence_frames -= 1; copy SILENCE_FRAME; ready = true;
    -- if silence_frames == 0 && waiting_for_source: Stopped
    if s.silence - 1 = 0 ∧ s.waiting = true then
      ({ s with silence := s.silence - 1, ready := true },
        .emit (.stopped ssrc))
    else
      ({ s with silence := s.silence - 1, ready := true }, .cont)
  else if !s.hasSource then
    -- let Some(source) = ... else { std::future::pending().await }
    (s, .blocked)
  else if s.waiting then
    -- read with no deadline; end_wait = true:
    -- next_packet = now + TIMESTEP_LENGTH; waiting_for_source = false
    match r with
    | .ok len =>
        if 0 < len then
          ({ s with ready := true, nextPacket := now + TIMESTEP_LENGTH, waiting := false },
            .emit (.started ssrc))
        else
          ({ hasSource := (takeSource s).hasSource, waiting := false,
              silence := (takeSource s).silence, ready := (takeSource s).ready,
              nextPacket := now + TIMESTEP_LENGTH },
            .emit (.started ssrc))
    | .err => (s, .errored)
    | .timeout => (s, .blocked)
  else
    -- read with deadline next_packet + patience; end_wait = false
    match r with
    | .ok len =>
        if 0 < len then ({ s with ready := true }, .cont)
        else (takeSource s, .cont)
    | .err => (s, .errored)
    | .timeout => (waitForSource s, .cont)

/-- Inputs driving a run: the task may install or remove a source
between polls, and each poll of `stream` either sends a ready packet
or produces the next one. -/
inductive StreamIn where
  | install
  | take
  | tick (now : Nat) (r : SourceRead)

/-- A run of the streamer over a script, collecting the statuses that
`stream` returns (the run stops at an error or a forever-blocked
read). -/
def runStreamer (ssrc : Nat) : PacketStreamer → List StreamIn → List Status
  | _, [] => []
  | s, .install :: rest => runStreamer ssrc (sourceInstall s) rest
  | s, .take :: rest => runStreamer ssrc (takeSource s) rest
  | s, .tick now r :: rest =>
      if s.ready then
        -- sleep_until(next_packet); rtp.send; next_packet += TIMESTEP_LENGTH
        runStreamer ssrc
          { s with nextPacket := s.nextPacket + TIMESTEP_LENGTH, ready := false }
          rest
      else
        match nextStep s now r ssrc with
        | (s', .emit st) => st :: runStreamer ssrc s' rest
        | (s', .cont) => runStreamer ssrc s' rest
        | (_, .blocked) => []
        | (_, .errored) => []

/-- `altCheck exp l` holds when the statuses in `l` strictly
alternate, the next expected one being Started iff `exp`. -/
def altCheck : Bool → List Status → Bool
  | _, [] => true
  | exp, .started _ :: r => exp && altCheck false r
  | exp, .stopped _ :: r => !exp && altCheck true r

/-- The run invariant: before the next Started (`exp = true`) the
streamer waits with no queued silence; after a Started (`exp = false`)
it is either actively streaming or counting down queued silence. -/
def StreamInv (s : PacketStreamer) (exp : Bool) : Prop :=
  match exp with
  | true => s.waiting = true ∧ s.silence = 0
  | false =>
      (s.waiting = false ∧ s.silence = 0) ∨ (s.waiting = true ∧ 1 ≤ s.silence)

theorem waitForSource_of_waiting {s : PacketStreamer} (h : s.waiting = true) :
    waitForSource s = s := by
  unfold waitForSource
  rw [h]
  simp

theorem waitForSource_of_streaming {s : PacketStreamer} (h : s.waiting = false) :
    waitForSource s = { s with waiting := true, silence := s.silence + 5 } := by
  unfold waitForSource
  rw [h]
  simp

theorem streamInv_waitForSource {s : PacketStreamer} {exp : Bool}
    (h : StreamInv s exp) : StreamInv (waitForSource s) exp := by
  cases exp with
  | true =>
      replace h : s.waiting = true ∧ s.silence = 0 := h
      rw [waitForSource_of_waiting h.1]
      exact h
  | false =>
      replace h : (s.waiting = false ∧ s.silence = 0) ∨
        (s.waiting = true ∧ 1 ≤ s.silence) := h
      rcases h with ⟨hw, hs⟩ | ⟨hw, hs⟩
      · rw [waitForSource_of_streaming hw]
        exact Or.inr ⟨rfl, by show 1 ≤ s.silence + 5; omega⟩
      · rw [waitForSource_of_waiting hw]
        exact Or.inr ⟨hw, hs⟩

theorem streamInv_install {s : PacketStreamer} {exp : Bool}
    (h : StreamInv s exp) : StreamInv (sourceInstall s) exp := by
  have h2 := streamInv_waitForSource h
  cases exp with
  | true => exact h2
  | false => exact h2

theorem streamInv_take {s : PacketStreamer} {exp : Bool}
    (h : StreamInv s exp) : StreamInv (takeSource s) exp := by
  have h2 := streamInv_waitForSource h
  cases exp with
  | true => exact h2
  | false => exact h2

/-- Invariant preservation for one `nextStep`, with the emitted status
agreeing with the expected parity. -/
theorem streamInv_step {s s' : PacketStreamer} {exp : Bool} {out : NextOut}
    {now ssrc : Nat} {r : SourceRead}
    (h : StreamInv s exp) (heq : nextStep s now r ssrc = (s', out)) :
    match out with
    | .emit (.started _) => exp = true ∧ StreamInv s' false
    | .emit (.stopped _) => exp = false ∧ StreamInv s' true
    | .cont => StreamInv s' exp
    | .blocked => True
    | .errored => True := by
  unfold nextStep at heq
  split at heq
  · -- 0 < s.silence: the silent-frame branch
    rename_i hsil
    have hexp : exp = false := by
      cases exp with
      | true =>
          replace h : s.waiting = true ∧ s.silence = 0 := h
          omega
      | false => rfl
    subst hexp
    replace h : (s.waiting = false ∧ s.silence = 0) ∨
      (s.waiting = true ∧ 1 ≤ s.silence) := h
    have hwait : s.waiting = true := by
      rcases h with ⟨-, hz⟩ | ⟨hw, -⟩
      · omega
      · exact hw
    split at heq
    · -- silence hits 0 while waiting: Stopped
      rename_i hcond
      injection heq with h1 h2
      subst h1
      subst h2
      exact ⟨rfl, ⟨hcond.2, hcond.1⟩⟩
    · -- still counting down
      rename_i hcond
      injection heq with h1 h2
      subst h1
      subst h2
      show (_ ∧ _) ∨ (_ ∧ _)
      right
      refine ⟨hwait, ?_⟩
      show 1 ≤ s.silence - 1
      rcases not_and_or.mp hcond with hne | hne
      · omega
      · exact absurd hwait hne
  · -- no source: pending forever
    rename_i hsil
    split at heq
    · injection heq with h1 h2
      subst h2
      trivial
    · rename_i hsrc
      split at heq
      · -- waiting branch: read with no deadline
        rename_i hwait
        have hsz : s.silence = 0 := by omega
        have hexp : exp = true := by
          cases exp with
          | true => rfl
          | false =>
              replace h : (s.waiting = false ∧ s.silence = 0) ∨
                (s.waiting = true ∧ 1 ≤ s.silence) := h
              rcases h with ⟨hwf, -⟩ | ⟨-, hone⟩
              · rw [hwait] at hwf; cases hwf
              · omega
        subst hexp
        split at heq
        · -- Ok(len): Started in both sub-branches
          split at heq
          · injection heq with h1 h2
            subst h1
            subst h2
            exact ⟨rfl, Or.inl ⟨rfl, hsz⟩⟩
          · injection heq with h1 h2
            subst h1
            subst h2
            refine ⟨rfl, Or.inl ⟨rfl, ?_⟩⟩
            show (takeSource s).silence = 0
            show (waitForSource s).silence = 0
            rw [waitForSource_of_waiting hwait]
            exact hsz
        · -- Err
          injection heq with h1 h2
          subst h2
          trivial
        · -- read never completes
          injection heq with h1 h2
          subst h2
          trivial
      · -- streaming branch: read with deadline
        rename_i hwait
        have hsz : s.silence = 0 := by omega
        have hw : s.waiting = false := by
          cases hv : s.waiting with
          | false => rfl
          | true => exact absurd hv hwait
        have hexp : exp = false := by
          cases exp with
          | true =>
              replace h : s.waiting = true ∧ s.silence = 0 := h
              rw [hw] at h
              cases h.1
          | false => rfl
        subst hexp
        split at heq
        · -- Ok(len)
          split at heq
          · injection heq with h1 h2
            subst h1
            subst h2
            exact Or.inl ⟨hw, hsz⟩
          · injection heq with h1 h2
            subst h1
            subst h2
            show (_ ∧ _) ∨ (_ ∧ _)
            right
            constructor
            · show (waitForSource s).waiting = true
              rw [waitForSource_of_streaming hw]
            · show 1 ≤ (waitForSource s).silence
              rw [waitForSource_of_streaming hw]
              show 1 ≤ s.silence + 5
              omega
        · -- Err
          injection heq with h1 h2
          subst h2
          trivial
        · -- timeout: synthesise silence
          injection heq with h1 h2
          subst h1
          subst h2
          show (_ ∧ _) ∨ (_ ∧ _)
          right
          rw [waitForSource_of_streaming hw]
          exact ⟨rfl, by show 1 ≤ s.silence + 5; omega⟩

/-- Along any run of the streamer, the emitted statuses strictly
alternate as dictated by the invariant parity. -/
theorem runStreamer_alt (ssrc : Nat) (script : List StreamIn) :
    ∀ (s : PacketStreamer) (exp : Bool), StreamInv s exp →
      altCheck exp (runStreamer ssrc s script) = true := by
  induction script with
  | nil =>
      intro s exp _
      rfl
  | cons i rest ih =>
      intro s exp hinv
      cases i with
      | install => exact ih _ _ (streamInv_install hinv)
      | take => exact ih _ _ (streamInv_take hinv)
      | tick now r =>
          have hrun : runStreamer ssrc s (StreamIn.tick now r :: rest) =
              if s.ready then
                runStreamer ssrc
                  { s with
                    nextPacket := s.nextPacket + TIMESTEP_LENGTH
                    ready := false }
                  rest
              else
                match nextStep s now r ssrc with
                | (s', .emit st) => st :: runStreamer ssrc s' rest
                | (s', .cont) => runStreamer ssrc s' rest
                | (_, .blocked) => []
                | (_, .errored) => [] := rfl
          rw [hrun]
          by_cases hr : s.ready
          · rw [if_pos hr]
            exact ih _ _ hinv
          · rw [if_neg hr]
            cases hstep : nextStep s now r ssrc with
            | mk s2 out =>
            have hstep' := streamInv_step hinv hstep
            cases out with
            | emit st =>
                cases st with
                | started v =>
                    obtain ⟨hexp, hinv'⟩ := hstep'
                    subst hexp
                    show (true && altCheck false (runStreamer ssrc s2 rest)) = true
                    rw [Bool.true_and]
                    exact ih _ _ hinv'
                | stopped v =>
                    obtain ⟨hexp, hinv'⟩ := hstep'
                    subst hexp
                    show (!false && altCheck true (runStreamer ssrc s2 rest)) = true
                    rw [Bool.not_false, Bool.true_and]
                    exact ih _ _ hinv'
            | cont => exact ih _ _ hstep'
            | blocked => rfl
            | errored => rfl

/-- Concrete streamer state used in the C5 theorems: waiting for a
source, source installed, no queued silence. -/
def c5s : PacketStreamer :=
  { hasSource := true, waiting := true, silence := 0, ready := false,
    nextPacket := 0 }

/-- C5 counterexample: while `waiting_for_source` is true, a read that
succeeds with `len = 0` (immediate EOF) still returns
`Status::Started` — refuting "returns Started only when the read
succeeds with len > 0". -/
theorem c5_counterexample :
    (nextStep c5s 0 (SourceRead.ok 0) 7).2 = NextOut.emit (Status.started 7) := by
  decide

/-- C5 (amended): while `waiting_for_source` is true, the pull returns
`Started(ssrc)` whenever the read succeeds — for any `len`, with
`len = 0` closing and dropping the source first — resetting
`next_packet` to `now + 20 ms` and clearing `waiting_for_source`; and
over any run of `stream` the Started/Stopped statuses strictly
alternate starting with Started. -/
theorem c5_started_alternation :
    (∀ (s : PacketStreamer) (now len ssrc : Nat),
      s.waiting = true → s.hasSource = true → s.silence = 0 →
      (nextStep s now (.ok len) ssrc).2 = .emit (.started ssrc) ∧
      (nextStep s now (.ok len) ssrc).1.waiting = false ∧
      (nextStep s now (.ok len) ssrc).1.nextPacket = now + TIMESTEP_LENGTH ∧
      (0 < len → (nextStep s now (.ok len) ssrc).1.ready = true ∧
        (nextStep s now (.ok len) ssrc).1.hasSource = true) ∧
      (len = 0 → (nextStep s now (.ok len) ssrc).1.hasSource = false)) ∧
    (∀ (ssrc now : Nat) (script : List StreamIn),
      altCheck true (runStreamer ssrc (PacketStreamer.init now) script) = true) := by
  constructor
  · intro s now len ssrc hw hsrc hsz
    have hred : nextStep s now (.ok len) ssrc =
        if 0 < len then
          ({ s with ready := true, nextPacket := now + TIMESTEP_LENGTH, waiting := false },
            .emit (.started ssrc))
        else
          ({ hasSource := (takeSource s).hasSource, waiting := false,
              silence := (takeSource s).silence, ready := (takeSource s).ready,
              nextPacket := now + TIMESTEP_LENGTH },
            .emit (.started ssrc)) := by
      unfold nextStep
      rw [if_neg (by omega), if_neg (by rw [hsrc]; simp), if_pos hw]
    by_cases hlen : 0 < len
    · rw [hred, if_pos hlen]
      refine ⟨rfl, rfl, rfl, fun _ => ⟨rfl, hsrc⟩, fun h0 => ?_⟩
      omega
    · rw [hred, if_neg hlen]
      refine ⟨rfl, rfl, rfl, fun hl => absurd hl hlen, fun _ => ?_⟩
      show (takeSource s).hasSource = false
      unfold takeSource
      rfl
  · intro ssrc now script
    exact runStreamer_alt ssrc script _ true ⟨rfl, rfl⟩

/-- Witness for `c5_started_alternation`: the EOF-while-waiting pull
on a concrete state, and a concrete install-then-read run. -/
theorem c5_started_alternation_witness :
    (nextStep c5s 3 (SourceRead.ok 0) 7).2 = NextOut.emit (Status.started 7) ∧
    (nextStep c5s 3 (SourceRead.ok 0) 7).1.waiting = false ∧
    altCheck true (runStreamer 7 (PacketStreamer.init 0)
      [StreamIn.install, StreamIn.tick 0 (SourceRead.ok 3)]) = true :=
  ⟨(c5_started_alternation.1 c5s 3 0 7 rfl rfl rfl).1,
    (c5_started_alternation.1 c5s 3 0 7 rfl rfl rfl).2.1,
    c5_started_alternation.2 7 0 _⟩

/-- C6 counterexample: installing a source into a fresh streamer (a
"no source" → "source installed" transition) adds zero silence
frames, because `wait_for_source` only adds 5 when
`waiting_for_source` was false — refuting "every transition adds
exactly 5 silence frames". -/
theorem c6_counterexample :
    (PacketStreamer.init 0).hasSource = false ∧
    (sourceInstall (PacketStreamer.init 0)).hasSource = true ∧
    (sourceInstall (PacketStreamer.init 0)).silence = 0 := by
  decide

/-- C6 (amended): `source()` and `take_source()` queue 5 silence
frames exactly when the streamer was actively streaming
(`waiting_for_source == false`); when it was already waiting, no
silence frames are added.  Both leave `waiting_for_source` true. -/
theorem c6_silence_padding (s : PacketStreamer) :
    (sourceInstall s).silence = s.silence + (if s.waiting then 0 else 5) ∧
    (takeSource s).silence = s.silence + (if s.waiting then 0 else 5) ∧
    (sourceInstall s).hasSource = true ∧
    (takeSource s).hasSource = false ∧
    (sourceInstall s).waiting = true ∧
    (takeSource s).waiting = true := by
  cases hw : s.waiting with
  | true =>
      unfold sourceInstall takeSource
      rw [waitForSource_of_waiting hw]
      simp [hw]
  | false =>
      unfold sourceInstall takeSource
      rw [waitForSource_of_streaming hw]
      simp [hw]

/-! ## Player task (src/src/voice/mod.rs) -/

/-- `voice::Error` (src/src/voice/error.rs); inner payloads elided. -/
inductive VoiceError where
  | ws
  | rtp
  | audio
  | gatewayClosed
  | timeout
  | cannotJoin
  | disconnected
  deriving DecidableEq, Repr

/-- `EventType` (src/src/voice/mod.rs, lines 277-287). -/
inductive EventType where
  | ready
  | playing
  | stopped
  | error (e : VoiceError)
  deriving DecidableEq, Repr

/-- `PlayerTask::set_playing` (src/src/voice/mod.rs, lines 457-471):
`fetch_xor(playing)` stores `prev XOR playing` and returns the
*previous* value; only when that previous value was `true` does the
code store `playing` and publish a Playing/Stopped event.  Returns the
final flag value and the event published (if any). -/
def setPlaying (prevPlaying playing : Bool) : Bool × Option EventType :=
  -- if self.state.playing.fetch_xor(playing, Ordering::Acquire) {
  --     self.state.playing.store(playing, Ordering::Release); ... }
  if prevPlaying then
    (playing, some (if playing then .playing else .stopped))
  else
    (xor prevPlaying playing, none)

/-- Effects of the `Status::Started(ssrc)` arm of the supervisor loop
(src/src/voice/mod.rs, lines 562-571): the Speaking payload sent and
the events published. -/
structure StartedEffects where
  speaking : Nat
  ssrc : Nat
  playingFlag : Bool
  events : List EventType
  deriving DecidableEq, Repr

/-- The `Started(ssrc)` arm: send `Speaking { speaking: 1, ssrc }`,
then `set_playing(true)`. -/
def handleStarted (prevPlaying : Bool) (ssrc : Nat) : StartedEffects :=
  { speaking := 1,
    ssrc := ssrc,
    playingFlag := (setPlaying prevPlaying true).1,
    events := match (setPlaying prevPlaying true).2 with
      | some e => [e]
      | none => [] }

/-- C7: on `Status::Started`, Speaking(1) is indeed sent — but when
the player was *not* already marked playing (the transition from not
playing to playing), no `EventType::Playing` is published, because
`fetch_xor` returned the previous value `false`; the event fires only
when the flag was already true. -/
theorem c7_started_no_playing_event (ssrc : Nat) :
    (handleStarted false ssrc).speaking = 1 ∧
    (handleStarted false ssrc).events = [] ∧
    (handleStarted false ssrc).playingFlag = true ∧
    (∀ prev : Bool, (handleStarted prev ssrc).events =
      if prev then [EventType.playing] else []) := by
  refine ⟨rfl, rfl, rfl, ?_⟩
  intro prev
  cases prev <;> rfl

/-! ### Initialisation failure (C4) -/

/-- A gateway event as seen by the init loop of `PlayerTask::new`:
a VoiceStateUpdate (with or without a matching `user_id`) or a
VoiceServerUpdate. -/
inductive InitGatewayEvent where
  | voiceStateUpdate (userMatches : Bool)
  | voiceServerUpdate
  deriving DecidableEq, Repr

/-- The init wait loop (src/src/voice/mod.rs, lines 340-354) over the
events that arrive before the 5-second deadline: record a matching
VoiceStateUpdate / any VoiceServerUpdate, breaking when both are
present.  Returns whether both arrived. -/
def collectInit : List InitGatewayEvent → Bool → Bool → Bool
  | [], vstu, vseu => vstu && vseu
  | .voiceStateUpdate m :: rest, vstu, vseu =>
      if (m || vstu) && vseu then true else collectInit rest (m || vstu) vseu
  | .voiceServerUpdate :: rest, vstu, _ =>
      if vstu && true then true else collectInit rest vstu true

/-- `PlayerTask::new` outcome (lines 357-377): `CannotJoin` when the
wait loop ends without both events, else the result of the 5-second
`Connection::connect` attempt (`Timeout`, a connect error, or
success). -/
def playerTaskNew (evs : List InitGatewayEvent)
    (connectRes : Except VoiceError Unit) : Except VoiceError Unit :=
  if collectInit evs false false then connectRes
  else .error .cannotJoin

/-- The spawned task body of `Player::new` (src/src/voice/mod.rs,
lines 174-186): on `Ok(task)` run the main loop (whose published
events are `runEvents`); on `Err(err)` only
`error!(%err, "voice init error")` — nothing reaches the event
channel. -/
def spawnedTaskEvents (initRes : Except VoiceError Unit)
    (runEvents : List EventType) : List EventType :=
  match initRes with
  | .ok _ => runEvents
  | .error _ => []

/-- C4 counterexample: with no gateway events before the deadline,
`PlayerTask::new` fails with `CannotJoin`, and the spawned task
publishes *nothing* on the event channel — no `EventType::Error` is
delivered, contrary to the claim. -/
theorem c4_counterexample :
    playerTaskNew [] (Except.ok ()) = Except.error VoiceError.cannotJoin ∧
    spawnedTaskEvents (playerTaskNew [] (Except.ok ())) [EventType.ready] = [] :=
  ⟨rfl, rfl⟩

/-- C4 (amended): whenever `PlayerTask::new` fails — `CannotJoin`
because the two gateway events never both arrived, or `Timeout`
or any other error from the connection attempt — the spawned task
merely logs the error and exits: no event at all (in particular no
`EventType::Error`) is delivered on the event channel. -/
theorem c4_init_failure_no_event (evs : List InitGatewayEvent)
    (runEvents : List EventType) (e : VoiceError) :
    spawnedTaskEvents (Except.error e) runEvents = [] ∧
    spawnedTaskEvents (playerTaskNew evs (Except.error e)) runEvents = [] := by
  refine ⟨rfl, ?_⟩
  unfold playerTaskNew
  by_cases hc : collectInit evs false false
  · rw [if_pos hc]
    rfl
  · rw [if_neg hc]
    rfl

/-! ## Voice websocket connection and resume (src/src/voice/ws/mod.rs)

`Connection` carries the session fields, a generation counter for the
physical websocket (`connect_async` bumps it) and the heartbeat nonce.
The RTP `Socket` is *not* part of `Connection`; the pair
`{ ws, rtp }` as held by `PlayerTask` is modelled by `PlayerConn`.
A script of `WsItem`s stands for what the parsing layer yields from
the websocket stream. -/

/-- Parsed gateway events, as distinguished by `Connection::recv` and
`Connection::resume`. -/
inductive WsGatewayEvent where
  | heartbeatAck (nonce : Nat)
  | speaking
  | clientConnect
  | clientDisconnect
  | resumed
  | otherEvent
  deriving DecidableEq, Repr

/-- One item from the websocket stream: a parsed event, a protocol
error (logged and skipped by `recv`), a close frame with a known 40xx
code, a transport reset without close handshake (resumable), or any
other error. -/
inductive WsItem where
  | ev (e : WsGatewayEvent)
  | protocolErr
  | apiErr (code : Nat)
  | transportReset
  | otherErr
  deriving DecidableEq, Repr

/-- `Error::can_resume` (src/src/voice/ws/error.rs): a 4015
(`VoiceServerCrashed`) close or a reset-without-closing-handshake. -/
def wsItemCanResume : WsItem → Bool
  | .apiErr code => code = 4015
  | .transportReset => true
  | _ => false

/-- `Connection` state (session fields, websocket generation,
heartbeat nonce). -/
structure Connection where
  sessionId : Nat
  token : Nat
  endpoint : Nat
  guildId : Nat
  wssGen : Nat
  hbNonce : Nat
  deriving DecidableEq, Repr

/-- The `ws`/`rtp` pair held by `PlayerTask`. -/
structure PlayerConn where
  conn : Connection
  rtp : Socket

/-- The wait loop of `Connection::resume` (lines 311-324): consume
events until `Resumed`; unexpected events are logged and dropped; any
error fails the resume.  Returns success, the connection (the loop
itself never writes any field) and the unconsumed script. -/
def resumeLoop : Connection → List WsItem → (Bool × Connection) × List WsItem
  | c, [] => ((true, c), [])
  | c, .ev .resumed :: rest => ((true, c), rest)
  | c, .ev _ :: rest => resumeLoop c rest
  | c, _ :: rest => ((false, c), rest)

/-- `Connection::resume` (lines 290-327): open a fresh websocket to
the same endpoint (generation bump), send
`Resume { guild_id, session_id, token }`, then run the wait loop. -/
def resumeModel (c : Connection) (script : List WsItem) :
    (Bool × Connection) × List WsItem :=
  resumeLoop { c with wssGen := c.wssGen + 1 } script

theorem resumeLoop_suffix {c : Connection} {script : List WsItem} :
    (resumeLoop c script).2.length ≤ script.length := by
  induction script generalizing c with
  | nil => exact Nat.le_refl _
  | cons i rest ih =>
      cases i with
      | ev e =>
          cases e with
          | resumed => exact Nat.le_succ _
          | heartbeatAck n => exact Nat.le_trans ih (Nat.le_succ _)
          | speaking => exact Nat.le_trans ih (Nat.le_succ _)
          | clientConnect => exact Nat.le_trans ih (Nat.le_succ _)
          | clientDisconnect => exact Nat.le_trans ih (Nat.le_succ _)
          | otherEvent => exact Nat.le_trans ih (Nat.le_succ _)
      | protocolErr => exact Nat.le_succ _
      | apiErr code => exact Nat.le_succ _
      | transportReset => exact Nat.le_succ _
      | otherErr => exact Nat.le_succ _

/-- The loop of `Connection::resume` never writes any connection
field: it only consumes incoming events. -/
theorem resumeLoop_conn_eq {c : Connection} {script : List WsItem} :
    (resumeLoop c script).1.2 = c := by
  induction script generalizing c with
  | nil => rfl
  | cons i rest ih =>
      cases i with
      | ev e =>
          cases e with
          | resumed => rfl
          | heartbeatAck n => exact ih
          | speaking => exact ih
          | clientConnect => exact ih
          | clientDisconnect => exact ih
          | otherEvent => exact ih
      | protocolErr => rfl
      | apiErr code => rfl
      | transportReset => rfl
      | otherErr => rfl

/-- Outcome of `Connection::recv`. -/
inductive RecvOut where
  | event (e : WsGatewayEvent)
  | err
  | closed
  deriving DecidableEq, Repr

/-- `Connection::recv` (lines 68-115) over the `ws`/`rtp` pair:
HeartbeatAck is compared (log only), Speaking/ClientConnect/
ClientDisconnect surface, other events and protocol errors are logged
and skipped, a resumable error triggers `resume()` inline (continuing
the loop on success), any other error surfaces, and the end of the
stream yields `None`. -/
def recvLoop : PlayerConn → List WsItem → RecvOut × PlayerConn
  | p, [] => (.closed, p)
  | p, .ev (.heartbeatAck _) :: rest => recvLoop p rest
  | p, .ev .speaking :: rest => (.event .speaking, p)
  | p, .ev .clientConnect :: rest => (.event .clientConnect, p)
  | p, .ev .clientDisconnect :: rest => (.event .clientDisconnect, p)
  | p, .ev .resumed :: rest => recvLoop p rest
  | p, .ev .otherEvent :: rest => recvLoop p rest
  | p, .protocolErr :: rest => recvLoop p rest
  | p, .apiErr code :: rest =>
      if code = 4015 then
        match hres : resumeModel p.conn rest with
        | ((true, c'), rest') =>
            have : rest'.length ≤ rest.length := by
              have h := @resumeLoop_suffix { p.conn with wssGen := p.conn.wssGen + 1 } rest
              rw [show (resumeLoop { p.conn with wssGen := p.conn.wssGen + 1 } rest)
                = resumeModel p.conn rest from rfl, hres] at h
              exact h
            recvLoop { p with conn := c' } rest'
        | ((false, c'), _) => (.err, { p with conn := c' })
      else (.err, p)
  | p, .transportReset :: rest =>
      match hres : resumeModel p.conn rest with
      | ((true, c'), rest') =>
          have : rest'.length ≤ rest.length := by
            have h := @resumeLoop_suffix { p.conn with wssGen := p.conn.wssGen + 1 } rest
            rw [show (resumeLoop { p.conn with wssGen := p.conn.wssGen + 1 } rest)
              = resumeModel p.conn rest from rfl, hres] at h
            exact h
          recvLoop { p with conn := c' } rest'
      | ((false, c'), _) => (.err, { p with conn := c' })
  | p, .otherErr :: rest => (.err, p)
termination_by p script => script.length
decreasing_by
  all_goals simp_wf
  all_goals omega

/-- Outcome of one `source.read` while `Connection::send` retries. -/
inductive WriteRes where
  | ok
  | resumableErr
  | fatalErr
  deriving DecidableEq, Repr

/-- `Connection::send` (lines 119-130) over the pair: on a resumable
write error, resume and retry the write once. -/
def sendModel (p : PlayerConn) (w1 : WriteRes) (script : List WsItem)
    (w2 : WriteRes) : Bool × PlayerConn :=
  match w1 with
  | .ok => (true, p)
  | .fatalErr => (false, p)
  | .resumableErr =>
      match resumeModel p.conn script with
      | ((true, c'), _) =>
          (match w2 with | .ok => true | _ => false, { p with conn := c' })
      | ((false, c'), _) => (false, { p with conn := c' })

theorem recvLoop_rtp (p : PlayerConn) (script : List WsItem) :
    (recvLoop p script).2.rtp = p.rtp := by
  induction p, script using recvLoop.induct <;> simp_all [recvLoop] <;>
    split <;> simp_all

/-- C8: `Connection::resume` reopens only the websocket — its wait
loop writes no connection field, so the whole resume changes only the
websocket generation — and the RTP `Socket` (not even an argument of
`resume`) is untouched: after any `recv` (including those that perform
a resume inline on a 4015 close or transport reset) and after any
`send` (with its transparent resume-and-retry), the socket's `ssrc`,
`sequence` and `timestamp` are exactly what they were before. -/
theorem c8_resume_preserves_socket (p : PlayerConn) (script : List WsItem)
    (w1 w2 : WriteRes) :
    (resumeModel p.conn script).1.2 =
      { p.conn with wssGen := p.conn.wssGen + 1 } ∧
    (recvLoop p script).2.rtp.ssrc = p.rtp.ssrc ∧
    (recvLoop p script).2.rtp.sequence = p.rtp.sequence ∧
    (recvLoop p script).2.rtp.timestamp = p.rtp.timestamp ∧
    (sendModel p w1 script w2).2.rtp = p.rtp := by
  refine ⟨?_, ?_, ?_, ?_, ?_⟩
  · exact resumeLoop_conn_eq
  · rw [recvLoop_rtp]
  · rw [recvLoop_rtp]
  · rw [recvLoop_rtp]
  · cases w1 with
    | ok => rfl
    | fatalErr => rfl
    | resumableErr =>
        unfold sendModel
        cases hres : resumeModel p.conn script with
        | mk bc rest' =>
            cases bc with
            | mk b c' => cases b <;> rfl

end Swc
